import Mathlib

/-!
Verification development for the sticky-one clipboard-history daemon.

The Rust sources are shallowly embedded: Rust `String` becomes `List Char`
(one element per Unicode scalar value, as `str::chars()`), byte vectors
become `List Nat`, `i64` becomes `Int`, and the SQLite-backed storage
becomes a pure record of rows plus the next rowid.  SQL statements are
embedded by their SQLite semantics (`LIKE` pattern matching with ASCII
case folding, `ORDER BY created_at DESC` with the descending-rowid tie
order produced by the backward scan of `idx_created_at`, `DELETE ... WHERE`
as a filter).  Fallible operations return `Except`.
-/

namespace Sticky

/-- One clipboard string, one element per Unicode scalar value. -/
abbrev Str := List Char

/-- Rust `char::is_whitespace`: the Unicode `White_Space` property,
listed by code point. -/
def isWs (c : Char) : Bool :=
  let n := c.toNat
  (0x09 ≤ n && n ≤ 0x0D) || n == 0x20 || n == 0x85 || n == 0xA0 ||
  n == 0x1680 || (0x2000 ≤ n && n ≤ 0x200A) || n == 0x2028 ||
  n == 0x2029 || n == 0x202F || n == 0x205F || n == 0x3000

/-- Accumulator pass of `str::split_whitespace`: splits into the maximal
runs of non-whitespace characters, dropping all whitespace. -/
def splitWsAux : Str → Str → List Str
  | [], acc => if acc.isEmpty then [] else [acc.reverse]
  | c :: rest, acc =>
    if isWs c then
      (if acc.isEmpty then splitWsAux rest [] else acc.reverse :: splitWsAux rest [])
    else
      splitWsAux rest (c :: acc)

/-- Rust `text.split_whitespace()` from `Entry::display_preview`. -/
def splitWs (s : Str) : List Str := splitWsAux s []

/-- `text.split_whitespace().collect::<Vec<_>>().join(" ")` from
`Entry::display_preview`: whitespace runs collapsed to single spaces,
leading and trailing whitespace dropped. -/
def collapseWs (s : Str) : Str := List.intercalate [' '] (splitWs s)

/-- Rust `String::len` of a `List Char`: the UTF-8 byte count. -/
def utf8Len (s : Str) : Nat := s.foldl (fun n c => n + c.utf8Size) 0

/-- SQLite `sqlite3UpperToLower` case folding used by `LIKE`:
ASCII upper-case letters fold to lower case, everything else is kept. -/
def asciiLower (c : Char) : Char :=
  if 'A' ≤ c ∧ c ≤ 'Z' then Char.ofNat (c.toNat + 32) else c

/-- Does `n` occur at the start of `h`? (exact, case-sensitive). -/
def prefixMatch : Str → Str → Bool
  | [], _ => true
  | _ :: _, [] => false
  | a :: as, b :: bs => a == b && prefixMatch as bs

/-- Does `n` occur contiguously anywhere inside `h`?
(exact, case-sensitive substring containment). -/
def containsSub : Str → Str → Bool
  | n, [] => prefixMatch n []
  | n, c :: t => prefixMatch n (c :: t) || containsSub n t

/-- Tries `f` on every suffix of the input (including the input itself
and the empty suffix): how a `%` pattern character consumes an arbitrary
run of text. -/
def tailsAny (f : Str → Bool) : Str → Bool
  | [] => f []
  | c :: s => f (c :: s) || tailsAny f s

/-- SQLite default `LIKE` pattern matching (`patternCompare`):
`%` matches any character sequence, `_` matches exactly one character,
and ordinary characters compare under ASCII case folding. -/
def likeMatch : Str → Str → Bool
  | [], s => s.isEmpty
  | p :: ps, s =>
    if p = '%' then
      tailsAny (likeMatch ps) s
    else if p = '_' then
      match s with
      | [] => false
      | _ :: s2 => likeMatch ps s2
    else
      match s with
      | [] => false
      | c :: s2 => (asciiLower p == asciiLower c) && likeMatch ps s2

/-- `ContentType` from `entry.rs`. -/
inductive ContentType where
  | Text
  | Link
  | Image
deriving DecidableEq

/-- `ContentType::as_str` from `entry.rs`. -/
def ContentType.as_str : ContentType → Str
  | .Text => "text".toList
  | .Link => "link".toList
  | .Image => "image".toList

/-- `ContentType::parse` from `entry.rs`. -/
def ContentType.parse (s : Str) : Option ContentType :=
  if s = "text".toList then some .Text
  else if s = "link".toList then some .Link
  else if s = "image".toList then some .Image
  else none

/-- `Entry` from `entry.rs`.  `id` is 0 before insertion. -/
structure Entry where
  id : Int
  content_type : ContentType
  content : Option Str
  image_data : Option (List Nat)
  hash : Str
  created_at : Int
deriving DecidableEq

/-- `Entry::display_preview` from `entry.rs`.  The truncation test
`collapsed.len() > max_len` compares the UTF-8 *byte* length, while
`collapsed.chars().take(max_len)` takes *characters*. -/
def displayPreview (e : Entry) (maxLen : Nat) : Str :=
  match e.content_type with
  | .Text | .Link =>
    let text := e.content.getD []
    let collapsed := collapseWs text
    if utf8Len collapsed > maxLen then
      collapsed.take maxLen ++ "...".toList
    else
      collapsed
  | .Image =>
    let size := (e.image_data.map List.length).getD 0
    "[Image: ".toList ++ (Nat.repr size).toList ++ " bytes]".toList

/-- Single pass of whitespace-run collapsing: `prevWs` records whether
the previous character was whitespace (so a continuing run emits
nothing). -/
def specCollapseAux : Bool → Str → Str
  | _, [] => []
  | prevWs, c :: rest =>
    if isWs c then
      (if prevWs then specCollapseAux true rest else ' ' :: specCollapseAux true rest)
    else
      c :: specCollapseAux false rest

/-- Whitespace collapsing modelled from the spec's words alone
("collapse all whitespace runs (including newlines/tabs) to single
spaces"): every maximal whitespace run becomes one space, with no
trimming.  Kept for comparison against `collapseWs`. -/
def specCollapseWs (s : Str) : Str := specCollapseAux false s

/-- `StickyError` from `error.rs` (string payloads kept abstract). -/
inductive StickyError where
  | Database (msg : Str)
  | Io (msg : Str)
  | Clipboard (msg : Str)
  | DaemonRunning (pid : Nat)
  | DaemonNotRunning
  | Daemon (msg : Str)
  | NotFound (id : Int)
  | ImageTooLarge (size max : Nat)
deriving DecidableEq

/-- One row of the `entries` table from `storage.rs`: `content_type` is a
TEXT column, `content`/`image_data` are nullable. -/
structure Row where
  id : Int
  content_type : Str
  content : Option Str
  image_data : Option (List Nat)
  hash : Str
  created_at : Int
deriving DecidableEq

/-- The `entries` table plus SQLite's next rowid.  `rows` is kept in
rowid (= insertion) order; well-formedness is `Storage.WF` below. -/
structure Storage where
  rows : List Row
  nextId : Int
deriving DecidableEq

/-- Rowid discipline of the backing table: rowids strictly increase along
the stored list and stay below the next rowid to be assigned. -/
def Storage.WF (s : Storage) : Prop :=
  s.rows.Pairwise (fun a b => a.id < b.id) ∧ ∀ r ∈ s.rows, r.id < s.nextId

/-- Serialization performed by `Storage::insert`'s `INSERT` statement,
with the rowid the engine assigns. -/
def entryToRow (id : Int) (e : Entry) : Row :=
  { id := id
    content_type := e.content_type.as_str
    content := e.content
    image_data := e.image_data
    hash := e.hash
    created_at := e.created_at }

/-- `row_to_entry` from `storage.rs`: an unrecognized `content_type` tag
is coerced to `Text` (`unwrap_or(ContentType::Text)`); nullable columns
decode to `None` (`row.get(..).ok()`). -/
def rowToEntry (r : Row) : Entry :=
  { id := r.id
    content_type := (ContentType.parse r.content_type).getD .Text
    content := r.content
    image_data := r.image_data
    hash := r.hash
    created_at := r.created_at }

/-- `Storage::insert`: append the serialized row under the next rowid and
return `last_insert_rowid`. -/
def insertEntry (s : Storage) (e : Entry) : Storage × Int :=
  ({ rows := s.rows ++ [entryToRow s.nextId e], nextId := s.nextId + 1 }, s.nextId)

/-- `ORDER BY created_at DESC` as executed through `idx_created_at`:
newest first; rows with equal `created_at` come out in descending rowid
order (the index is scanned backwards, and within one key the index is
ordered by rowid).  Modelled as a stable insertion sort of the
rowid-reversed row list by descending `created_at`. -/
def sortNewestFirst (rows : List Row) : List Row :=
  List.insertionSort (fun a b => b.created_at ≤ a.created_at) rows.reverse

/-- `Storage::get_by_id`: the `WHERE id = ?1` lookup, `NotFound(id)` when
no row matches.  A pure function: the store is never modified. -/
def getById (i : Int) (s : Storage) : Except StickyError Entry :=
  match s.rows.find? (fun r => r.id == i) with
  | some r => .ok (rowToEntry r)
  | none => .error (.NotFound i)

/-- `Storage::list`: newest-first, capped at `limit`. -/
def listEntries (limit : Nat) (s : Storage) : List Entry :=
  ((sortNewestFirst s.rows).take limit).map rowToEntry

/-- The `content LIKE '%query%'` predicate of `Storage::search`: a NULL
`content` (image row) never matches. -/
def likeRow (q : Str) (r : Row) : Bool :=
  match r.content with
  | some c => likeMatch ('%' :: (q ++ ['%'])) c
  | none => false

/-- `Storage::search`: rows whose `content` matches `LIKE '%query%'`,
newest-first, capped at `limit`. -/
def searchEntries (q : Str) (limit : Nat) (s : Storage) : List Entry :=
  ((sortNewestFirst (s.rows.filter (likeRow q))).take limit).map rowToEntry

/-- `RETENTION_HOURS` from `config.rs`. -/
def RETENTION_HOURS : Int := 12

/-- The eviction cutoff `now - RETENTION_HOURS * 3600` computed by
`Storage::cleanup_old`. -/
def cutoffOf (now : Int) : Int := now - RETENTION_HOURS * 3600

/-- `Storage::cleanup_old`: `DELETE FROM entries WHERE created_at < cutoff`,
returning the number of rows removed. -/
def cleanupOld (now : Int) (s : Storage) : Storage × Nat :=
  ({ s with rows := s.rows.filter (fun r => !(r.created_at < cutoffOf now)) },
   (s.rows.filter (fun r => r.created_at < cutoffOf now)).length)

/-- The mutable daemon state of `Daemon` from `daemon.rs`. -/
structure DaemonState where
  storage : Storage
  last_hash : Option Str
deriving DecidableEq

/-- Outcome of the external `read_as_entry()` collaborator at one poll
tick. -/
inductive ReadOutcome where
  | ok (e : Option Entry)
  | err (er : StickyError)
deriving DecidableEq

/-- `Daemon::poll_clipboard` from `daemon.rs`, at clock value `now`:
empty reads and `ImageTooLarge` are skipped; a candidate whose hash
equals `last_hash` is skipped (dedup); otherwise the candidate is
inserted, `last_hash` is updated and `cleanup_old` runs.  The second
component is the `Result`'s error, logged by the caller. -/
def pollClipboard (now : Int) (r : ReadOutcome) (d : DaemonState) :
    DaemonState × Option StickyError :=
  match r with
  | .ok none => (d, none)
  | .err (.ImageTooLarge _ _) => (d, none)
  | .err e => (d, some e)
  | .ok (some e) =>
    if d.last_hash = some e.hash then
      (d, none)
    else
      let s1 := (insertEntry d.storage e).1
      let s2 := (cleanupOld now s1).1
      ({ storage := s2, last_hash := some e.hash }, none)

/-- Key identifiers: Linux evdev key codes, as used by `evdev::KeyCode`. -/
abbrev KeyCode := Nat

/-- `KEY_LEFTALT`. -/
def KEY_LEFTALT : KeyCode := 56

/-- `KEY_LEFTSHIFT`. -/
def KEY_LEFTSHIFT : KeyCode := 42

/-- `KEY_C`. -/
def KEY_C : KeyCode := 46

/-- One merged key event `(KeyCode, bool)` from `listener.rs`: the key
and whether it was a press (`value == 1`) rather than a release. -/
abbrev KeyEvent := KeyCode × Bool

/-- The `pressed` set update in `HotkeyListener::listen`:
`pressed.insert(key)` on press, `pressed.remove(&key)` on release
(`HashSet` semantics, modelled as a duplicate-free list). -/
def applyEvent (pressed : List KeyCode) (ev : KeyEvent) : List KeyCode :=
  if ev.2 then
    (if ev.1 ∈ pressed then pressed else ev.1 :: pressed)
  else
    pressed.filter (fun k => k ≠ ev.1)

/-- The `pressed` set after a whole event sequence, starting empty. -/
def applyEvents (pressed : List KeyCode) (evs : List KeyEvent) : List KeyCode :=
  evs.foldl applyEvent pressed

/-- The body of the `while let` loop in `HotkeyListener::listen`: for each
merged event, update `pressed`, then emit `true` exactly when the event
is a press of the trigger key and every configured modifier is in the
updated `pressed` set. -/
def comboRun (trigger : KeyCode) (mods : List KeyCode) (pressed : List KeyCode) :
    List KeyEvent → List Bool
  | [] => []
  | ev :: rest =>
    let ps := applyEvent pressed ev
    (decide (ev.1 = trigger) && ev.2 && mods.all (fun m => decide (m ∈ ps))) ::
      comboRun trigger mods ps rest

/-- Specification-side view of the `pressed` set: a key is held after an
event sequence iff its last press/release event in the sequence is a
press. -/
def heldAfter (m : KeyCode) (evs : List KeyEvent) : Bool :=
  match (evs.filter (fun ev => ev.1 == m)).getLast? with
  | some ev => ev.2
  | none => false

/-- `HotkeyConfig` from `config.rs` (raw configured names). -/
structure HotkeyConfig where
  modifiers : List Str
  key : Str
deriving DecidableEq

/-- `Config` from `config.rs`. -/
structure Config where
  hotkey : HotkeyConfig
deriving DecidableEq

/-- `HotkeyConfig::default` from `config.rs`. -/
def defaultHotkeyConfig : HotkeyConfig :=
  { modifiers := ["Alt".toList, "Shift".toList], key := "C".toList }

/-- `Config::default` (derived `Default`: the default hotkey config). -/
def defaultConfig : Config := { hotkey := defaultHotkeyConfig }

/-- `Config::load` from `config.rs`, with the file system and the TOML
parser at its boundary: `fileExists` is `path.exists()`, `readRes` is
`fs::read_to_string(&path).ok()`, and `parse` abstracts
`|s| toml::from_str(&s).ok()`.  When the file exists, any read or parse
failure falls back to the default config (`unwrap_or_default`); when it
does not exist, the default config is saved and returned. -/
def loadConfig (fileExists : Bool) (readRes : Option Str)
    (parse : Str → Option Config) : Config :=
  if fileExists then
    ((readRes.bind parse).getD defaultConfig)
  else
    defaultConfig

/-- The search predicate in the spec's vocabulary, amended to SQLite's
case folding: the row's `content` contains the query as an
ASCII-case-insensitive substring; image rows (no `content`) never
match. -/
def specSearchRow (q : Str) (r : Row) : Bool :=
  match r.content with
  | some c => containsSub (q.map asciiLower) (c.map asciiLower)
  | none => false

/-- A text row with a given timestamp, for the retention boundary
instances. -/
def rowAt (t : Int) : Row :=
  { id := 1, content_type := "text".toList, content := some "x".toList
    image_data := none, hash := "h".toList, created_at := t }

/-- A text row with content `"BAR"`. -/
def rowBAR : Row :=
  { id := 1, content_type := "text".toList, content := some "BAR".toList
    image_data := none, hash := "hb".toList, created_at := 0 }

/-- Store holding the single text row `"BAR"`. -/
def storeBAR : Storage := { rows := [rowBAR], nextId := 2 }

/-- The `"foo bar baz"` row of the spec's search scenario. -/
def rowFoo : Row :=
  { id := 1, content_type := "text".toList, content := some "foo bar baz".toList
    image_data := none, hash := "h1".toList, created_at := 5 }

/-- The `"unrelated"` row of the spec's search scenario. -/
def rowUn : Row :=
  { id := 2, content_type := "text".toList, content := some "unrelated".toList
    image_data := none, hash := "h2".toList, created_at := 6 }

/-- Store of the spec's search scenario. -/
def storeFoo : Storage := { rows := [rowFoo, rowUn], nextId := 3 }

/-- The `"first"` row of the spec's list scenario. -/
def rowFirst : Row :=
  { id := 1, content_type := "text".toList, content := some "first".toList
    image_data := none, hash := "hf".toList, created_at := 7 }

/-- The `"second"` row of the spec's list scenario (same capture second
as `"first"`). -/
def rowSecond : Row :=
  { id := 2, content_type := "text".toList, content := some "second".toList
    image_data := none, hash := "hs".toList, created_at := 7 }

/-- Store of the spec's list scenario. -/
def storeFS : Storage := { rows := [rowFirst, rowSecond], nextId := 3 }

/-- A freshly captured text entry (id still 0), used as a concrete
candidate for the daemon-poll and round-trip instances. -/
def entryW : Entry :=
  { id := 0, content_type := .Text, content := some "hello".toList
    image_data := none, hash := "hw".toList, created_at := 100000 }

/-- A row whose content-type tag is unrecognized. -/
def rowBad : Row :=
  { id := 1, content_type := "wtf".toList, content := some "abc".toList
    image_data := none, hash := "h".toList, created_at := 0 }

/-- A store holding only `rowBad`. -/
def storeBadTag : Storage := { rows := [rowBad], nextId := 2 }

/-- C7: `cleanup_old` deletes exactly the rows with `created_at`
strictly below `now - RETENTION_HOURS * 3600` and returns their count;
a row one second older than the cutoff is removed (count 1) and a row
one second newer survives (count 0). -/
theorem cleanup_old_exact :
    (∀ (s : Storage) (now : Int),
      (cleanupOld now s).1.rows
          = s.rows.filter (fun r => !(r.created_at < cutoffOf now))
      ∧ (cleanupOld now s).2
          = (s.rows.filter (fun r => r.created_at < cutoffOf now)).length
      ∧ ∀ r : Row, r ∈ (cleanupOld now s).1.rows
          ↔ r ∈ s.rows ∧ ¬(r.created_at < now - RETENTION_HOURS * 3600))
    ∧ (∀ now : Int,
        cleanupOld now ⟨[rowAt (now - RETENTION_HOURS * 3600 - 1)], 2⟩ = (⟨[], 2⟩, 1))
    ∧ (∀ now : Int,
        cleanupOld now ⟨[rowAt (now - RETENTION_HOURS * 3600 + 1)], 2⟩
          = (⟨[rowAt (now - RETENTION_HOURS * 3600 + 1)], 2⟩, 0)) := by
  refine ⟨fun s now => ⟨rfl, rfl, fun r => ?_⟩, fun now => ?_, fun now => ?_⟩
  · simp [cleanupOld, cutoffOf, List.mem_filter]
  · have h : (rowAt (now - RETENTION_HOURS * 3600 - 1)).created_at
        < cutoffOf now := by simp [rowAt, cutoffOf]
    simp [cleanupOld, List.filter, h]
  · have h : ¬ (rowAt (now - RETENTION_HOURS * 3600 + 1)).created_at
        < cutoffOf now := by simp [rowAt, cutoffOf]
    simp [cleanupOld, List.filter, h]

/-- C10: `Config::load` is total; when the config file exists but the
read fails or its text is not valid TOML, the built-in default
configuration (modifiers `["Alt", "Shift"]`, trigger key `"C"`) is
returned silently. -/
theorem config_load_defaults :
    ∀ (fe : Bool) (rr : Option Str) (parse : Str → Option Config),
      (fe = true → rr = none → loadConfig fe rr parse = defaultConfig)
      ∧ (∀ s : Str, fe = true → rr = some s → parse s = none →
          loadConfig fe rr parse = defaultConfig)
      ∧ defaultConfig.hotkey.modifiers = ["Alt".toList, "Shift".toList]
      ∧ defaultConfig.hotkey.key = "C".toList := by
  intro fe rr parse
  refine ⟨fun hfe hrr => ?_, fun s hfe hrr hp => ?_, rfl, rfl⟩
  · subst hfe hrr; simp [loadConfig]
  · subst hfe hrr; simp [loadConfig, hp]

/-- Witness for C10 at a concrete unparsable config file. -/
theorem config_load_defaults_witness :
    loadConfig true (some "not == valid == toml".toList) (fun _ => none)
      = defaultConfig :=
  (config_load_defaults true (some "not == valid == toml".toList)
      (fun _ => none)).2.1 "not == valid == toml".toList rfl rfl rfl

/-- C2 counterexample: `display_preview` decides truncation by the UTF-8
*byte* length (`collapsed.len()`), not by characters, and its collapsing
trims leading whitespace.  On content `" éé"` with `maxLen = 3` the code
emits `"éé..."`, although the spec-collapsed text `" éé"` has only 3
characters, so by the claim the output should have been the collapsed
input unchanged. -/
theorem preview_truncates_by_bytes_counterexample :
    displayPreview ⟨0, .Text, some " éé".toList, none, "h".toList, 0⟩ 3
        = "éé...".toList
    ∧ (specCollapseWs " éé".toList).length ≤ 3
    ∧ displayPreview ⟨0, .Text, some " éé".toList, none, "h".toList, 0⟩ 3
        ≠ specCollapseWs " éé".toList := by
  refine ⟨rfl, by decide, by decide⟩

/-- C2 amended: for a text/link entry, `display_preview` collapses
whitespace runs to single spaces (dropping leading/trailing whitespace)
and appends an ellipsis after the first `n` characters exactly when the
collapsed text exceeds `n` UTF-8 *bytes*; a truncated output has at most
`n + 3` characters, and otherwise the output is the collapsed text
unchanged. -/
theorem preview_collapse_truncate (e : Entry) (n : Nat)
    (hct : e.content_type = .Text ∨ e.content_type = .Link) :
    (utf8Len (collapseWs (e.content.getD [])) ≤ n →
      displayPreview e n = collapseWs (e.content.getD []))
    ∧ (n < utf8Len (collapseWs (e.content.getD [])) →
        displayPreview e n
            = (collapseWs (e.content.getD [])).take n ++ "...".toList
        ∧ (displayPreview e n).length ≤ n + 3) := by
  have hd : displayPreview e n
      = if utf8Len (collapseWs (e.content.getD [])) > n then
          (collapseWs (e.content.getD [])).take n ++ "...".toList
        else collapseWs (e.content.getD []) := by
    rcases hct with h | h <;> simp [displayPreview, h]
  constructor
  · intro hle
    rw [hd, if_neg (by omega)]
  · intro hlt
    rw [hd, if_pos (by omega)]
    refine ⟨rfl, ?_⟩
    have h3 : ("...".toList).length = 3 := rfl
    have ht := List.length_take n (collapseWs (e.content.getD []))
    rw [List.length_append, h3]
    omega

/-- Witness for C2 at a concrete multi-run input that is not
truncated. -/
theorem preview_collapse_truncate_witness :
    displayPreview ⟨0, .Text, some "hello\n  world\t\tfoo".toList, none,
        "h".toList, 0⟩ 80
      = collapseWs "hello\n  world\t\tfoo".toList
    ∧ collapseWs "hello\n  world\t\tfoo".toList = "hello world foo".toList :=
  ⟨(preview_collapse_truncate
      ⟨0, .Text, some "hello\n  world\t\tfoo".toList, none, "h".toList, 0⟩ 80
      (Or.inl rfl)).1 (by decide), by decide⟩

/-- C3: when `created_at` is non-decreasing along insertion order (the
spec's "normal clock behavior"), `list(limit)` is exactly the reverse of
the insertion order capped at `limit`: newest first, equal-timestamp
rows in descending rowid order. -/
theorem list_newest_first (s : Storage) (lim : Nat)
    (h : s.rows.Pairwise (fun a b => a.created_at ≤ b.created_at)) :
    listEntries lim s = (s.rows.reverse.take lim).map rowToEntry := by
  unfold listEntries sortNewestFirst
  rw [List.Sorted.insertionSort_eq]
  exact List.pairwise_reverse.mpr h

/-- Witness for C3: the spec's scenario, inserting `"first"` then
`"second"` (same capture second) and listing 10. -/
theorem list_newest_first_witness :
    listEntries 10 storeFS = (storeFS.rows.reverse.take 10).map rowToEntry
    ∧ (listEntries 10 storeFS).map (fun e => e.content)
        = [some "second".toList, some "first".toList] :=
  ⟨list_newest_first storeFS 10 (by decide),
   by rw [list_newest_first storeFS 10 (by decide)]; decide⟩

/-- C5: on a poll tick that yields a candidate entry, a candidate whose
fingerprint equals the last-seen one is skipped with the state
unchanged; otherwise the candidate is inserted (surviving the eviction
pass that follows, being fresh), and the last-seen fingerprint becomes
the candidate's.  Processing the same candidate a second time is a
no-op, so two consecutive identical clipboard reads store exactly one
entry. -/
theorem poll_dedup (d : DaemonState) (now : Int) (e : Entry) :
    (d.last_hash = some e.hash → pollClipboard now (.ok (some e)) d = (d, none))
    ∧ (d.last_hash ≠ some e.hash → cutoffOf now ≤ e.created_at →
        (pollClipboard now (.ok (some e)) d).1.storage.rows
            = d.storage.rows.filter (fun r => !(r.created_at < cutoffOf now))
                ++ [entryToRow d.storage.nextId e]
        ∧ (pollClipboard now (.ok (some e)) d).1.last_hash = some e.hash)
    ∧ pollClipboard now (.ok (some e)) (pollClipboard now (.ok (some e)) d).1
        = ((pollClipboard now (.ok (some e)) d).1, none) := by
  refine ⟨fun hh => by simp [pollClipboard, hh], fun hh hfresh => ?_, ?_⟩
  · have hkeep : (!((entryToRow d.storage.nextId e).created_at < cutoffOf now))
        = true := by
      simp [entryToRow]; omega
    constructor
    · simp [pollClipboard, hh, cleanupOld, insertEntry, List.filter_append,
        List.filter, hkeep]
    · simp [pollClipboard, hh]
  · by_cases hh : d.last_hash = some e.hash
    · simp [pollClipboard, hh]
    · have hs1 : pollClipboard now (.ok (some e)) d
          = ({ storage := (cleanupOld now (insertEntry d.storage e).1).1,
               last_hash := some e.hash }, none) := by
        simp [pollClipboard, hh]
      rw [hs1]
      simp [pollClipboard]

/-- Witness for C5: from an empty store with no last-seen fingerprint,
two identical reads of the fresh entry `entryW` leave exactly its row in
the store. -/
theorem poll_dedup_witness :
    (pollClipboard 100000 (.ok (some entryW))
        (pollClipboard 100000 (.ok (some entryW)) ⟨⟨[], 1⟩, none⟩).1).1.storage.rows
      = [entryToRow 1 entryW] := by
  have h := poll_dedup ⟨⟨[], 1⟩, none⟩ 100000 entryW
  have h2 := (h.2.1 (by decide) (by decide)).1
  have h3 := h.2.2
  rw [h3]
  simpa using h2

/-- Serializing a `ContentType` tag and parsing it back is the
identity. -/
theorem parse_as_str (ct : ContentType) :
    ContentType.parse ct.as_str = some ct := by
  cases ct <;> rfl

/-- Decoding the row stored for an entry recovers the entry, with the
store-assigned rowid. -/
theorem rowToEntry_entryToRow (i : Int) (e : Entry) :
    rowToEntry (entryToRow i e) = { e with id := i } := by
  cases e with
  | mk id ct content image hash created =>
    simp [rowToEntry, entryToRow, parse_as_str]

/-- C6: inserting an entry and looking up the returned rowid yields an
entry equal to the inserted one in every field except `id`, which is the
store-assigned value. -/
theorem insert_get_roundtrip (s : Storage) (e : Entry) (hwf : s.WF) :
    getById (insertEntry s e).2 (insertEntry s e).1
      = .ok { e with id := (insertEntry s e).2 } := by
  unfold getById insertEntry
  rw [List.find?_append]
  have h1 : s.rows.find? (fun r => r.id == s.nextId) = none := by
    refine List.find?_eq_none.mpr (fun r hr => ?_)
    simp only [beq_iff_eq]
    exact ne_of_lt (hwf.2 r hr)
  have h2 : [entryToRow s.nextId e].find? (fun r => r.id == s.nextId)
      = some (entryToRow s.nextId e) := by
    simp [List.find?, entryToRow]
  rw [h1, h2]
  simp [rowToEntry_entryToRow]

/-- Witness for C6: round trip of `entryW` through an empty store. -/
theorem insert_get_roundtrip_witness :
    getById (insertEntry ⟨[], 1⟩ entryW).2 (insertEntry ⟨[], 1⟩ entryW).1
      = .ok { entryW with id := (insertEntry ⟨[], 1⟩ entryW).2 } :=
  insert_get_roundtrip ⟨[], 1⟩ entryW ⟨by simp, by simp⟩

/-- With pairwise strictly increasing rowids, `find?` by id returns the
unique row carrying it. -/
theorem find_by_id (rows : List Row)
    (hpw : rows.Pairwise (fun a b => a.id < b.id)) (r : Row) (hr : r ∈ rows)
    (i : Int) (hid : r.id = i) :
    rows.find? (fun x => x.id == i) = some r := by
  induction rows with
  | nil => cases hr
  | cons x xs ih =>
    rcases List.mem_cons.mp hr with heq | hmem
    · subst heq
      simp [List.find?, hid]
    · have hx : x.id ≠ i := by
        have := (List.pairwise_cons.mp hpw).1 r hmem
        omega
      rw [List.find?_cons_of_neg _ (by simpa using hx)]
      exact ih (List.pairwise_cons.mp hpw).2 hmem

/-- C8: `get_by_id` fails with exactly `NotFound(id)` iff no row carries
the id, and returns the stored row's decoding when one does.  The
operation is a pure query: it takes the store by value and returns no
modified store. -/
theorem get_by_id_spec (s : Storage) (i : Int) (hwf : s.WF) :
    (getById i s = .error (.NotFound i) ↔ ∀ r ∈ s.rows, r.id ≠ i)
    ∧ (∀ r ∈ s.rows, r.id = i → getById i s = .ok (rowToEntry r)) := by
  constructor
  · unfold getById
    cases hf : s.rows.find? (fun r => r.id == i) with
    | none =>
      simp only [true_iff]
      intro r hr
      have := List.find?_eq_none.mp hf r hr
      simp only [beq_iff_eq] at this
      exact this
    | some r =>
      simp only [reduceCtorEq, false_iff, not_forall]
      have hp := List.find?_some hf
      have hm := List.mem_of_find?_eq_some hf
      exact ⟨r, hm, by simpa using hp⟩
  · intro r hr hid
    unfold getById
    rw [find_by_id s.rows hwf.1 r hr i hid]

/-- Witness for C8: in the scenario store, id 1 is found and id 99 fails
with `NotFound(99)`. -/
theorem get_by_id_spec_witness :
    getById 99 storeFoo = .error (.NotFound 99)
    ∧ getById 1 storeFoo = .ok (rowToEntry rowFoo) :=
  ⟨((get_by_id_spec storeFoo 99 ⟨by decide, by decide⟩).1).mpr (by decide),
   (get_by_id_spec storeFoo 1 ⟨by decide, by decide⟩).2 rowFoo (by decide) rfl⟩

/-- C9: decoding never fails a query: a row with an unrecognized
content-type tag decodes to a `Text` entry, and `list` with a large
enough limit still returns it. -/
theorem decode_defensive (s : Storage) (r : Row) (lim : Nat)
    (hr : r ∈ s.rows) (hlim : s.rows.length ≤ lim)
    (htag : ContentType.parse r.content_type = none) :
    (rowToEntry r).content_type = .Text ∧ rowToEntry r ∈ listEntries lim s := by
  constructor
  · simp [rowToEntry, htag]
  · unfold listEntries
    have hperm := List.perm_insertionSort
      (fun a b : Row => b.created_at ≤ a.created_at) s.rows.reverse
    have hlen : (sortNewestFirst s.rows).length = s.rows.length := by
      rw [sortNewestFirst, hperm.length_eq, List.length_reverse]
    rw [List.take_of_length_le (by omega)]
    refine List.mem_map_of_mem rowToEntry ?_
    rw [sortNewestFirst, hperm.mem_iff, List.mem_reverse]
    exact hr

/-- Witness for C9: the `"wtf"`-tagged row decodes to `Text` and is
listed. -/
theorem decode_defensive_witness :
    (rowToEntry rowBad).content_type = .Text
    ∧ rowToEntry rowBad ∈ listEntries 10 storeBadTag :=
  decode_defensive storeBadTag rowBad 10 (by decide) (by decide) (by decide)

/-- `prefixMatch` holds exactly when the needle starts the haystack. -/
theorem prefixMatch_iff (n h : Str) :
    prefixMatch n h = true ↔ ∃ t, n ++ t = h := by
  induction n generalizing h with
  | nil => simp [prefixMatch]
  | cons a as ih =>
    cases h with
    | nil => simp [prefixMatch]
    | cons b bs =>
      rw [prefixMatch, Bool.and_eq_true, beq_iff_eq, ih]
      constructor
      · rintro ⟨rfl, t, rfl⟩
        exact ⟨t, rfl⟩
      · rintro ⟨t, ht⟩
        rw [List.cons_append, List.cons.injEq] at ht
        exact ⟨ht.1, t, ht.2⟩

/-- `containsSub` holds exactly when the needle occurs contiguously
inside the haystack. -/
theorem containsSub_iff (n h : Str) :
    containsSub n h = true ↔ ∃ l r, l ++ n ++ r = h := by
  induction h with
  | nil =>
    rw [containsSub, prefixMatch_iff]
    constructor
    · rintro ⟨t, ht⟩
      exact ⟨[], t, ht⟩
    · rintro ⟨l, r, hlr⟩
      simp only [List.append_eq_nil] at hlr
      exact ⟨r, by simp [hlr.1.2, hlr.2]⟩
  | cons c t ih =>
    rw [containsSub, Bool.or_eq_true, prefixMatch_iff, ih]
    constructor
    · rintro (⟨r, hr⟩ | ⟨l, r, hlr⟩)
      · exact ⟨[], r, by simpa using hr⟩
      · exact ⟨c :: l, r, by simp [hlr]⟩
    · rintro ⟨l, r, hlr⟩
      cases l with
      | nil => exact Or.inl ⟨r, by simpa using hlr⟩
      | cons x xs =>
        rw [List.cons_append, List.cons_append, List.cons.injEq] at hlr
        exact Or.inr ⟨xs, r, by simp [hlr.2]⟩

/-- `tailsAny f` holds exactly when `f` holds of some suffix. -/
theorem tailsAny_iff (f : Str → Bool) (s : Str) :
    tailsAny f s = true ↔ ∃ s1 s2, s = s1 ++ s2 ∧ f s2 = true := by
  induction s with
  | nil =>
    rw [tailsAny]
    constructor
    · intro hf
      exact ⟨[], [], rfl, hf⟩
    · rintro ⟨s1, s2, h, hf⟩
      simp only [List.nil_eq, List.append_eq_nil] at h
      rw [← h.2]; exact hf
  | cons c t ih =>
    rw [tailsAny, Bool.or_eq_true, ih]
    constructor
    · rintro (hf | ⟨s1, s2, rfl, hf⟩)
      · exact ⟨[], c :: t, rfl, hf⟩
      · exact ⟨c :: s1, s2, rfl, hf⟩
    · rintro ⟨s1, s2, h, hf⟩
      cases s1 with
      | nil => exact Or.inl (by rw [List.nil_append] at h; rw [h]; exact hf)
      | cons x xs =>
        rw [List.cons_append, List.cons.injEq] at h
        exact Or.inr ⟨xs, s2, h.2, hf⟩

/-- Unfolding of `likeMatch` on an empty pattern. -/
theorem likeMatch_nil (s : Str) : likeMatch [] s = s.isEmpty := rfl

/-- Unfolding of `likeMatch` on a leading `%`. -/
theorem likeMatch_percent (ps s : Str) :
    likeMatch ('%' :: ps) s = tailsAny (likeMatch ps) s := by
  cases s <;> rfl

/-- Unfolding of `likeMatch` on a leading ordinary character against an
empty string. -/
theorem likeMatch_plain_nil (a : Char) (ps : Str) (ha1 : ¬ a = '%')
    (ha2 : ¬ a = '_') : likeMatch (a :: ps) [] = false := by
  rw [likeMatch, if_neg ha1, if_neg ha2]

/-- Unfolding of `likeMatch` on a leading ordinary character against a
nonempty string. -/
theorem likeMatch_plain_cons (a : Char) (ps : Str) (c : Char) (s : Str)
    (ha1 : ¬ a = '%') (ha2 : ¬ a = '_') :
    likeMatch (a :: ps) (c :: s)
      = ((asciiLower a == asciiLower c) && likeMatch ps s) := by
  rw [likeMatch, if_neg ha1, if_neg ha2]

/-- A wildcard-free pattern followed by `%` matches exactly the strings
starting, under ASCII case folding, with the pattern. -/
theorem likeMatch_plain_percent (q : Str) (hp : '%' ∉ q) (hu : '_' ∉ q) :
    ∀ s : Str, likeMatch (q ++ ['%']) s = true
      ↔ ∃ s1 s2, s = s1 ++ s2 ∧ s1.map asciiLower = q.map asciiLower := by
  induction q with
  | nil =>
    intro s
    rw [List.nil_append, likeMatch_percent, tailsAny_iff]
    constructor
    · intro _
      exact ⟨[], s, by simp, by simp⟩
    · intro _
      exact ⟨s, [], by simp, rfl⟩
  | cons a as ih =>
    intro s
    have ha1 : ¬ a = '%' := fun h => hp (h ▸ List.mem_cons_self a as)
    have ha2 : ¬ a = '_' := fun h => hu (h ▸ List.mem_cons_self a as)
    have hp' : '%' ∉ as := fun h => hp (List.mem_cons_of_mem a h)
    have hu' : '_' ∉ as := fun h => hu (List.mem_cons_of_mem a h)
    rw [List.cons_append]
    cases s with
    | nil =>
      rw [likeMatch_plain_nil a _ ha1 ha2]
      constructor
      · intro h
        exact absurd h (by simp)
      · rintro ⟨s1, s2, h, hmap⟩
        simp only [List.nil_eq, List.append_eq_nil] at h
        rw [h.1] at hmap
        simp at hmap
    | cons c s2 =>
      rw [likeMatch_plain_cons a _ c s2 ha1 ha2, Bool.and_eq_true, beq_iff_eq,
        ih hp' hu' s2]
      constructor
      · rintro ⟨hl, t1, t2, rfl, hmap⟩
        exact ⟨c :: t1, t2, rfl, by simp [hmap, hl]⟩
      · rintro ⟨s1, s2', h, hmap⟩
        cases s1 with
        | nil => simp at hmap
        | cons x xs =>
          rw [List.cons_append, List.cons.injEq] at h
          rw [List.map_cons, List.map_cons, List.cons.injEq] at hmap
          obtain ⟨hcx, hrest⟩ := h
          subst hcx
          exact ⟨hmap.1.symm, xs, s2', hrest, hmap.2⟩

/-- Matching `LIKE '%q%'` for a wildcard-free `q` is exactly
ASCII-case-insensitive substring containment. -/
theorem likeMatch_contains (q : Str) (hp : '%' ∉ q) (hu : '_' ∉ q) (s : Str) :
    likeMatch ('%' :: (q ++ ['%'])) s
      = containsSub (q.map asciiLower) (s.map asciiLower) := by
  rw [likeMatch_percent]
  rw [Bool.eq_iff_iff, tailsAny_iff, containsSub_iff]
  constructor
  · rintro ⟨s1, s2, rfl, hm⟩
    obtain ⟨t1, t2, rfl, hmap⟩ := (likeMatch_plain_percent q hp hu s2).mp hm
    exact ⟨s1.map asciiLower, t2.map asciiLower, by simp [hmap]⟩
  · rintro ⟨l, r, hlr⟩
    refine ⟨s.take l.length, s.drop l.length, (List.take_append_drop _ s).symm, ?_⟩
    refine (likeMatch_plain_percent q hp hu _).mpr
      ⟨(s.drop l.length).take q.length, (s.drop l.length).drop q.length,
        (List.take_append_drop _ _).symm, ?_⟩
    have hds : (s.drop l.length).map asciiLower
        = q.map asciiLower ++ r := by
      rw [List.map_drop, ← hlr, List.append_assoc, List.drop_left]
    rw [List.map_take, hds, ← List.length_map q asciiLower, List.take_left]

/-- C1 counterexample: searching is not case-sensitive.  The store holds
only `"BAR"`; `"bar"` is not a case-sensitive substring of `"BAR"`, yet
`search("bar", 10)` returns the row, because SQLite `LIKE` folds ASCII
case. -/
theorem search_case_sensitive_counterexample :
    searchEntries "bar".toList 10 storeBAR = [rowToEntry rowBAR]
    ∧ containsSub "bar".toList "BAR".toList = false := by
  exact ⟨by decide, by decide⟩

/-- C1 amended: for a query without the `LIKE` metacharacters `%` and
`_`, `search(query, limit)` returns exactly the stored rows whose
`content` contains the query as an ASCII-case-insensitive substring
(rows with NULL `content`, i.e. images, are excluded), newest-first,
capped at `limit`. -/
theorem search_like_caseless (s : Storage) (q : Str) (lim : Nat)
    (hq : '%' ∉ q ∧ '_' ∉ q) :
    searchEntries q lim s
      = ((sortNewestFirst (s.rows.filter (specSearchRow q))).take lim).map
          rowToEntry := by
  unfold searchEntries
  have hfc : s.rows.filter (likeRow q) = s.rows.filter (specSearchRow q) := by
    refine List.filter_congr (fun r _ => ?_)
    unfold likeRow specSearchRow
    cases r.content with
    | none => rfl
    | some c => exact likeMatch_contains q hq.1 hq.2 c
  rw [hfc]

/-- Witness for C1: the spec's search scenario, resolved through the
amended theorem. -/
theorem search_like_caseless_witness :
    searchEntries "bar".toList 10 storeFoo
        = ((sortNewestFirst (storeFoo.rows.filter
            (specSearchRow "bar".toList))).take 10).map rowToEntry
    ∧ searchEntries "bar".toList 10 storeFoo = [rowToEntry rowFoo] :=
  ⟨search_like_caseless storeFoo "bar".toList 10 (by decide), by decide⟩

/-- `comboRun` emits one signal per consumed event. -/
theorem comboRun_length (trigger : KeyCode) (mods : List KeyCode) :
    ∀ (evs : List KeyEvent) (ps : List KeyCode),
      (comboRun trigger mods ps evs).length = evs.length := by
  intro evs
  induction evs with
  | nil => intro ps; rfl
  | cons ev rest ih => intro ps; simp [comboRun, ih]

/-- `comboRun` over a concatenation: the second half runs from the
`pressed` set accumulated over the first. -/
theorem comboRun_append (trigger : KeyCode) (mods : List KeyCode) :
    ∀ (xs ys : List KeyEvent) (ps : List KeyCode),
      comboRun trigger mods ps (xs ++ ys)
        = comboRun trigger mods ps xs
            ++ comboRun trigger mods (applyEvents ps xs) ys := by
  intro xs
  induction xs with
  | nil => intro ys ps; rfl
  | cons ev rest ih =>
    intro ys ps
    rw [List.cons_append]
    have hl : comboRun trigger mods ps (ev :: (rest ++ ys))
        = (decide (ev.1 = trigger) && ev.2
            && mods.all (fun m => decide (m ∈ applyEvent ps ev)))
          :: comboRun trigger mods (applyEvent ps ev) (rest ++ ys) := rfl
    have hr : comboRun trigger mods ps (ev :: rest)
        = (decide (ev.1 = trigger) && ev.2
            && mods.all (fun m => decide (m ∈ applyEvent ps ev)))
          :: comboRun trigger mods (applyEvent ps ev) rest := rfl
    rw [hl, hr, ih, List.cons_append]
    rfl

/-- A key's held state after appending an event for that key is the
appended event's press flag. -/
theorem heldAfter_append_same (m : KeyCode) (evs : List KeyEvent)
    (e : KeyEvent) (hem : e.1 = m) : heldAfter m (evs ++ [e]) = e.2 := by
  unfold heldAfter
  rw [List.filter_append]
  have hf1 : List.filter (fun ev => ev.1 == m) [e] = [e] := by
    simp [List.filter_cons, hem]
  rw [hf1, List.getLast?_concat]

/-- A key's held state is unchanged by appending an event for another
key. -/
theorem heldAfter_append_other (m : KeyCode) (evs : List KeyEvent)
    (e : KeyEvent) (hem : ¬ e.1 = m) :
    heldAfter m (evs ++ [e]) = heldAfter m evs := by
  unfold heldAfter
  rw [List.filter_append]
  have hf0 : List.filter (fun ev => ev.1 == m) [e] = [] := by
    simp [List.filter_cons, hem]
  rw [hf0, List.append_nil]

/-- The folded `pressed` set agrees with the last-event-wins view: a key
is in the set after an event sequence iff its last event in the sequence
is a press. -/
theorem mem_applyEvents_iff (m : KeyCode) :
    ∀ evs : List KeyEvent, m ∈ applyEvents [] evs ↔ heldAfter m evs = true := by
  intro evs
  induction evs using List.reverseRecOn with
  | nil =>
    have h1 : applyEvents [] ([] : List KeyEvent) = [] := rfl
    have h2 : heldAfter m [] = false := rfl
    rw [h1, h2]
    simp
  | append_singleton evs e ih =>
    have happ : applyEvents [] (evs ++ [e])
        = applyEvent (applyEvents [] evs) e := by
      simp [applyEvents, List.foldl_append]
    rw [happ]
    by_cases hem : e.1 = m
    · rw [heldAfter_append_same m evs e hem]
      unfold applyEvent
      subst hem
      by_cases hp : e.2
      · simp only [hp, if_true]
        by_cases hin : e.1 ∈ applyEvents [] evs <;> simp [hin]
      · simp only [Bool.not_eq_true] at hp
        simp only [hp, Bool.false_eq_true, if_false]
        simp [List.mem_filter]
    · rw [heldAfter_append_other m evs e hem, ← ih]
      unfold applyEvent
      have hne : ¬ m = e.1 := fun h => hem h.symm
      by_cases hp : e.2
      · simp only [hp, if_true]
        by_cases hin : e.1 ∈ applyEvents [] evs
        · simp [hin]
        · simp [hin, List.mem_cons, hne]
      · simp only [Bool.not_eq_true] at hp
        simp only [hp, Bool.false_eq_true, if_false]
        simp [List.mem_filter, hne]

/-- C4: the listener fires exactly at press events of the trigger key at
which every configured modifier is held.  For any non-empty modifier set
and any event sequence split as `pre ++ ev :: post`, the signal emitted
at `ev` is `true` iff `ev` is a press of the trigger and every modifier
key's last event in `pre ++ [ev]` is a press — so a trigger press with a
modifier missing, or following a modifier release, does not fire. -/
theorem combo_fires_iff (mods : List KeyCode) (trigger : KeyCode)
    (pre post : List KeyEvent) (ev : KeyEvent) (_hm : mods ≠ []) :
    ((comboRun trigger mods [] (pre ++ ev :: post)).getD pre.length false = true)
      ↔ (ev = (trigger, true)
          ∧ ∀ m ∈ mods, heldAfter m (pre ++ [ev]) = true) := by
  rw [comboRun_append]
  rw [List.getD_append_right _ _ _ _ (by rw [comboRun_length])]
  rw [comboRun_length, Nat.sub_self]
  have hc : comboRun trigger mods (applyEvents [] pre) (ev :: post)
      = (decide (ev.1 = trigger) && ev.2
          && mods.all (fun m => decide (m ∈ applyEvent (applyEvents [] pre) ev)))
        :: comboRun trigger mods (applyEvent (applyEvents [] pre) ev) post := rfl
  rw [hc, List.getD_cons_zero]
  have happ : applyEvent (applyEvents [] pre) ev
      = applyEvents [] (pre ++ [ev]) := by
    simp [applyEvents, List.foldl_append]
  rw [happ]
  simp only [Bool.and_eq_true, decide_eq_true_eq, List.all_eq_true,
    Prod.ext_iff]
  constructor
  · rintro ⟨⟨h1, h2⟩, h3⟩
    exact ⟨⟨h1, h2⟩, fun m hmem => (mem_applyEvents_iff m _).mp (h3 m hmem)⟩
  · rintro ⟨⟨h1, h2⟩, h3⟩
    exact ⟨⟨h1, h2⟩, fun m hmem => (mem_applyEvents_iff m _).mpr (h3 m hmem)⟩

/-- Witness for C4: the spec's scenario with modifiers Alt+Shift and
trigger C.  Alt, Shift, then C fires at the C press; C alone does not;
releasing Shift before pressing C does not. -/
theorem combo_fires_iff_witness :
    (comboRun KEY_C [KEY_LEFTALT, KEY_LEFTSHIFT] []
        [(KEY_LEFTALT, true), (KEY_LEFTSHIFT, true), (KEY_C, true)]).getD 2 false
      = true
    ∧ (comboRun KEY_C [KEY_LEFTALT, KEY_LEFTSHIFT] [] [(KEY_C, true)]).getD 0 false
      = false
    ∧ (comboRun KEY_C [KEY_LEFTALT, KEY_LEFTSHIFT] []
        [(KEY_LEFTALT, true), (KEY_LEFTSHIFT, true), (KEY_LEFTSHIFT, false),
          (KEY_C, true)]).getD 3 false
      = false := by
  refine ⟨?_, by decide, by decide⟩
  exact (combo_fires_iff [KEY_LEFTALT, KEY_LEFTSHIFT] KEY_C
    [(KEY_LEFTALT, true), (KEY_LEFTSHIFT, true)] [] (KEY_C, true)
    (by decide)).mpr (by decide)

end Sticky
